import Mathlib

/-!
Verification development for the cc0strategy-indexer repository.

The file shallowly embeds the parts of the code that the checked properties
talk about:

* the checkpointed block-range scanner `runIndexer` (src/index.ts) together
  with the checkpoint store `indexer_state` (src/db/index.js:
  `getIndexerState` / `updateIndexerState`),
* the OpenSea stream connector (src/opensea-stream.ts): reconnect backoff,
  subscription replay on `open`,
* the cache refresher (src/index.ts): `refreshMarketCache`,
  `refreshRewardsCache`, `refreshAllCaches`.

External I/O (the RPC node, the database, GeckoTerminal, random number
generation) is modelled by explicit oracle arguments, so every definition is
a computable function of its inputs.
-/

namespace Cc0Indexer

/-! ## Range Scanner (src/index.ts, `runIndexer`)

A fetched log.  Only the identity fields matter for the checked properties;
the decoded payload is irrelevant to checkpointing. -/

structure LogEntry where
  blockNumber : Nat
  txHash : String
  logIndex : Nat
  deriving DecidableEq

/-- Observable actions of one indexer run, in program order:
a `getLogs` RPC call for an inclusive block range, a hand-off of one log to
`handleTokenDeployed` (the Event Processor), and a checkpoint write
(`updateIndexerState('factory', toBlock)`). -/
inductive ScanAction where
  | fetchLogs (fromBlock toBlock : Nat)
  | processLog (l : LogEntry)
  | writeCheckpoint (b : Nat)
  deriving DecidableEq

/-- `START_BLOCK = 26700000n` in src/index.ts.  The scan functions take the
genesis height as an argument (the spec calls it configured); this constant
is the configuration the repository ships. -/
def START_BLOCK : Nat := 26700000

/-- `let fromBlock = state?.lastBlock ? state.lastBlock + 1n : START_BLOCK`.
JavaScript truthiness: a stored `lastBlock` of `0n` is falsy, so the seeded
row `('factory', 0)` from the schema migration behaves like a missing
checkpoint. -/
def resolveFromBlock (startBlock : Nat) (state : Option Nat) : Nat :=
  match state with
  | some lastBlock => if lastBlock ≠ 0 then lastBlock + 1 else startBlock
  | none => startBlock

/-- `const toBlock = fromBlock + batchSize > currentBlock ? currentBlock :
fromBlock + batchSize;` — note the batch bound is inclusive and the batch
spans `batchSize + 1` blocks when not truncated. -/
def batchToBlock (batchSize currentBlock fromBlock : Nat) : Nat :=
  if fromBlock + batchSize > currentBlock then currentBlock
  else fromBlock + batchSize

/-- The `while (fromBlock <= currentBlock)` loop of `runIndexer`.

`getLogs a b` is the RPC oracle for the inclusive range `[a, b]`; `none`
models a thrown RPC error, which the surrounding `try/catch` of `runIndexer`
turns into an abort of the remaining batches (the checkpoint keeps its last
written value).  `handleTokenDeployed` catches all of its own errors, so the
per-log loop always completes.

The result is the action trace of the loop together with the value of the
last `updateIndexerState` write (`none` when no write happened).  The `fuel`
argument makes the recursion structural; the entry point supplies
`currentBlock + 1 - fromBlock`, which is enough because every iteration
advances `fromBlock` by at least one. -/
def scanLoop (getLogs : Nat → Nat → Option (List LogEntry))
    (batchSize currentBlock : Nat) :
    Nat → Nat → List ScanAction × Option Nat
  | _, 0 => ([], none)
  | fromBlock, fuel + 1 =>
    if fromBlock > currentBlock then ([], none)
    else
      let toBlock := batchToBlock batchSize currentBlock fromBlock
      match getLogs fromBlock toBlock with
      | none => ([ScanAction.fetchLogs fromBlock toBlock], none)
      | some logs =>
        let rest := scanLoop getLogs batchSize currentBlock (toBlock + 1) fuel
        (ScanAction.fetchLogs fromBlock toBlock ::
            (logs.map ScanAction.processLog ++
              ScanAction.writeCheckpoint toBlock :: rest.1),
          some (rest.2.getD toBlock))

/-- One run of `runIndexer` (src/index.ts): resolve `fromBlock` from the
checkpoint, return early (`Already up to date`) when
`fromBlock >= currentBlock`, otherwise run the batch loop. -/
def runIndexer (getLogs : Nat → Nat → Option (List LogEntry))
    (batchSize startBlock currentBlock : Nat) (state : Option Nat) :
    List ScanAction × Option Nat :=
  let fromBlock := resolveFromBlock startBlock state
  if fromBlock ≥ currentBlock then ([], none)
  else scanLoop getLogs batchSize currentBlock fromBlock
    (currentBlock + 1 - fromBlock)

/-- Numeric value of the stored checkpoint; the schema seeds
`('factory', 0)`, so an absent row and a zero row read the same. -/
def stateVal : Option Nat → Nat
  | none => 0
  | some b => b

/-- The checkpoint stored after one run: `updateIndexerState` overwrites
`last_block` with the last written value, otherwise the row is untouched. -/
def runState (getLogs : Nat → Nat → Option (List LogEntry))
    (batchSize startBlock currentBlock : Nat) (state : Option Nat) :
    Option Nat :=
  match (runIndexer getLogs batchSize startBlock currentBlock state).2 with
  | some b => some b
  | none => state

/-- The checkpoint after a whole sequence of scheduled runs (the service
re-runs `runIndexer` every five minutes); each run sees its own RPC oracle
and remote height. -/
def runSequence (runs : List ((Nat → Nat → Option (List LogEntry)) × Nat))
    (batchSize startBlock : Nat) (state : Option Nat) : Option Nat :=
  runs.foldl (fun st r => runState r.1 batchSize startBlock r.2 st) state

/-- One fully fetched batch of a run: range endpoints and the logs the RPC
returned for it. -/
structure Batch where
  fromBlock : Nat
  toBlock : Nat
  logs : List LogEntry
  deriving DecidableEq

/-- The trace a successful batch contributes: the fetch, then every log
handed to the Event Processor, then — last — the checkpoint write. -/
def batchTrace (b : Batch) : List ScanAction :=
  ScanAction.fetchLogs b.fromBlock b.toBlock ::
    (b.logs.map ScanAction.processLog ++ [ScanAction.writeCheckpoint b.toBlock])

/-- The inclusive ranges of the `getLogs` calls a trace contains. -/
def fetchRanges (tr : List ScanAction) : List (Nat × Nat) :=
  tr.filterMap fun a =>
    match a with
    | ScanAction.fetchLogs x y => some (x, y)
    | _ => none

end Cc0Indexer

namespace Cc0Indexer

/-! ### Scanner lemmas -/

theorem batchToBlock_ge {batchSize currentBlock fromBlock : Nat}
    (h : fromBlock ≤ currentBlock) :
    fromBlock ≤ batchToBlock batchSize currentBlock fromBlock := by
  unfold batchToBlock; split <;> omega

theorem batchToBlock_le {batchSize currentBlock fromBlock : Nat} :
    fromBlock ≤ currentBlock →
    batchToBlock batchSize currentBlock fromBlock ≤ currentBlock := by
  intro h; unfold batchToBlock; split <;> omega

theorem getLast?_cons {α : Type} (a : α) (l : List α) :
    (a :: l).getLast? = some (l.getLast?.getD a) := by
  induction l generalizing a with
  | nil => rfl
  | cons c l ih =>
    rw [List.getLast?_cons_cons, ih c]
    cases h : l.getLast? <;> simp [h]

theorem stateVal_le_resolve (startBlock : Nat) (state : Option Nat) :
    stateVal state ≤ resolveFromBlock startBlock state := by
  cases state with
  | none => simp [stateVal, resolveFromBlock]
  | some lb =>
    simp only [stateVal, resolveFromBlock]
    split <;> omega

/-- A loop entered above the remote height writes nothing. -/
theorem scanLoop_out {o : Nat → Nat → Option (List LogEntry)}
    {batchSize currentBlock : Nat} (fuel fromBlock : Nat)
    (h : currentBlock < fromBlock) :
    (scanLoop o batchSize currentBlock fromBlock fuel).2 = none := by
  cases fuel with
  | zero => rfl
  | succ n => simp [scanLoop, h]

/-- Structure of every loop trace: a prefix of fully processed batches — each
one a fetch, then all of its logs handed to the Event Processor, then the
checkpoint write — optionally followed by one trailing failed fetch.  The
checkpoint value returned is the last processed batch bound; batch bounds
are strictly increasing, start at or after the entry block and never exceed
the remote height, and each batch holds exactly the logs its fetch
returned. -/
theorem scanLoop_shape (o : Nat → Nat → Option (List LogEntry))
    (batchSize currentBlock : Nat) :
    ∀ (fuel fromBlock : Nat), ∃ (bs : List Batch) (tail : List ScanAction),
      scanLoop o batchSize currentBlock fromBlock fuel
        = ((bs.map batchTrace).flatten ++ tail, (bs.map Batch.toBlock).getLast?)
      ∧ (tail = [] ∨ ∃ x y, tail = [ScanAction.fetchLogs x y])
      ∧ (∀ b ∈ bs, o b.fromBlock b.toBlock = some b.logs)
      ∧ List.Chain' (· < ·) (bs.map Batch.toBlock)
      ∧ (∀ b ∈ bs, fromBlock ≤ b.toBlock ∧ b.toBlock ≤ currentBlock) := by
  intro fuel
  induction fuel with
  | zero =>
    intro fromBlock
    exact ⟨[], [], rfl, Or.inl rfl, by simp, by simp, by simp⟩
  | succ n ih =>
    intro fromBlock
    by_cases hgt : fromBlock > currentBlock
    · exact ⟨[], [], by simp [scanLoop, hgt], Or.inl rfl, by simp, by simp, by simp⟩
    · have hle : fromBlock ≤ currentBlock := Nat.le_of_not_lt hgt
      set tb := batchToBlock batchSize currentBlock fromBlock with htb
      have htb1 : fromBlock ≤ tb := batchToBlock_ge hle
      have htb2 : tb ≤ currentBlock := batchToBlock_le hle
      cases ho : o fromBlock tb with
      | none =>
        refine ⟨[], [ScanAction.fetchLogs fromBlock tb], ?_, Or.inr ⟨_, _, rfl⟩,
          by simp, by simp, by simp⟩
        simp [scanLoop, hgt, ← htb, ho]
      | some logs =>
        obtain ⟨bs, tail, hEq, hTail, hOracle, hChain, hBound⟩ := ih (tb + 1)
        refine ⟨⟨fromBlock, tb, logs⟩ :: bs, tail, ?_, hTail, ?_, ?_, ?_⟩
        · simp only [scanLoop, if_neg hgt, ← htb, ho, hEq, Prod.mk.injEq]
          refine ⟨?_, ?_⟩
          · simp [batchTrace, List.append_assoc]
          · rw [List.map_cons, getLast?_cons]
        · intro b hb
          rcases List.mem_cons.mp hb with h | h
          · subst h; exact ho
          · exact hOracle b h
        · rw [List.map_cons, List.chain'_cons']
          refine ⟨?_, hChain⟩
          intro y hy
          show tb < y
          cases bs with
          | nil => simp at hy
          | cons hd tl =>
            simp only [List.map_cons, List.head?_cons, Option.mem_def,
              Option.some.injEq] at hy
            have h2 := (hBound hd (List.mem_cons_self hd tl)).1
            omega
        · intro b hb
          rcases List.mem_cons.mp hb with h | h
          · subst h; exact ⟨htb1, htb2⟩
          · have := hBound b h
            omega

/-- With a total RPC oracle and enough fuel, the loop runs to the remote
height and its last checkpoint write is exactly `currentBlock`. -/
theorem scanLoop_complete (o : Nat → Nat → Option (List LogEntry))
    (batchSize currentBlock : Nat) (hTot : ∀ a b, o a b ≠ none) :
    ∀ (fuel fromBlock : Nat), fromBlock ≤ currentBlock →
      currentBlock + 1 - fromBlock ≤ fuel →
      (scanLoop o batchSize currentBlock fromBlock fuel).2 = some currentBlock := by
  intro fuel
  induction fuel with
  | zero => intro fromBlock h1 h2; omega
  | succ n ih =>
    intro fromBlock h1 _
    have hgt : ¬ fromBlock > currentBlock := by omega
    set tb := batchToBlock batchSize currentBlock fromBlock with htb
    have htb1 : fromBlock ≤ tb := batchToBlock_ge h1
    have htb2 : tb ≤ currentBlock := batchToBlock_le h1
    cases ho : o fromBlock tb with
    | none => exact absurd ho (hTot fromBlock tb)
    | some logs =>
      have hrest : (scanLoop o batchSize currentBlock (tb + 1) n).2.getD tb
          = currentBlock := by
        by_cases hend : tb = currentBlock
        · rw [scanLoop_out n (tb + 1) (by omega)]
          simp [hend]
        · rw [ih (tb + 1) (by omega) (by omega)]
          rfl
      simp [scanLoop, hgt, ← htb, ho, hrest]

/-- A chain of `≤` forces the head to be below the last element. -/
theorem chain_le_getLast {a b : Nat} : ∀ {l : List Nat},
    List.Chain' (· ≤ ·) (a :: l) → l.getLast? = some b → a ≤ b := by
  intro l
  induction l generalizing a with
  | nil => intro _ h; simp at h
  | cons c l ih =>
    intro hchain hlast
    have hac : a ≤ c := (List.chain'_cons.mp hchain).1
    have hcl : List.Chain' (· ≤ ·) (c :: l) := (List.chain'_cons.mp hchain).2
    cases l with
    | nil =>
      simp at hlast
      omega
    | cons d l2 =>
      rw [List.getLast?_cons_cons] at hlast
      exact le_trans hac (ih hcl hlast)

/-- Shape of one full `runIndexer` run, lifted from `scanLoop_shape`, with
the checkpoint chain anchored at the stored value. -/
theorem runIndexer_shape (getLogs : Nat → Nat → Option (List LogEntry))
    (batchSize startBlock currentBlock : Nat) (state : Option Nat) :
    ∃ (bs : List Batch) (tail : List ScanAction),
      runIndexer getLogs batchSize startBlock currentBlock state
        = ((bs.map batchTrace).flatten ++ tail, (bs.map Batch.toBlock).getLast?)
      ∧ (tail = [] ∨ ∃ x y, tail = [ScanAction.fetchLogs x y])
      ∧ (∀ b ∈ bs, getLogs b.fromBlock b.toBlock = some b.logs)
      ∧ List.Chain' (· ≤ ·) (stateVal state :: bs.map Batch.toBlock)
      ∧ (∀ b ∈ bs, b.toBlock ≤ currentBlock) := by
  unfold runIndexer
  by_cases hge : resolveFromBlock startBlock state ≥ currentBlock
  · exact ⟨[], [], by simp [hge], Or.inl rfl, by simp, by simp, by simp⟩
  · obtain ⟨bs, tail, hEq, hTail, hOracle, hChain, hBound⟩ :=
      scanLoop_shape getLogs batchSize currentBlock
        (currentBlock + 1 - resolveFromBlock startBlock state)
        (resolveFromBlock startBlock state)
    refine ⟨bs, tail, by simp [hge, hEq], hTail, hOracle, ?_, fun b hb => (hBound b hb).2⟩
    rw [List.chain'_cons']
    refine ⟨?_, List.Chain'.imp (fun a b h => Nat.le_of_lt h) hChain⟩
    intro y hy
    cases bs with
    | nil => simp at hy
    | cons hd tl =>
      simp only [List.map_cons, List.head?_cons, Option.mem_def,
        Option.some.injEq] at hy
      have h1 := (hBound hd (List.mem_cons_self hd tl)).1
      have h2 := stateVal_le_resolve startBlock state
      omega

/-- The stored checkpoint never moves backwards over one run. -/
theorem stateVal_le_runState (getLogs : Nat → Nat → Option (List LogEntry))
    (batchSize startBlock currentBlock : Nat) (state : Option Nat) :
    stateVal state ≤
      stateVal (runState getLogs batchSize startBlock currentBlock state) := by
  obtain ⟨bs, tail, hEq, -, -, hChain, -⟩ :=
    runIndexer_shape getLogs batchSize startBlock currentBlock state
  unfold runState
  rw [hEq]
  cases hlast : (bs.map Batch.toBlock).getLast? with
  | none => simp
  | some b =>
    simp only [stateVal]
    exact chain_le_getLast hChain hlast

/-- C1: for every sequence of scan runs (each with its own RPC oracle and
remote height, so interleaved fetch failures are included), the stored
checkpoint `indexer_state.last_block` for source `factory` never decreases;
and every run's trace is a sequence of per-batch blocks in which the
checkpoint write for a batch comes strictly after the fetch and after every
log of that batch has been handed to `handleTokenDeployed` (shape
`batchTrace`), the only other trace content being one trailing failed fetch;
batch checkpoints form a `≤`-chain anchored at the previously stored
value. -/
theorem checkpoint_monotone_write_after_process :
    (∀ (runs : List ((Nat → Nat → Option (List LogEntry)) × Nat))
        (batchSize startBlock : Nat) (state : Option Nat),
        stateVal state ≤ stateVal (runSequence runs batchSize startBlock state))
    ∧ ∀ (getLogs : Nat → Nat → Option (List LogEntry))
        (batchSize startBlock currentBlock : Nat) (state : Option Nat),
        ∃ (bs : List Batch) (tail : List ScanAction),
          runIndexer getLogs batchSize startBlock currentBlock state
            = ((bs.map batchTrace).flatten ++ tail, (bs.map Batch.toBlock).getLast?)
          ∧ (tail = [] ∨ ∃ x y, tail = [ScanAction.fetchLogs x y])
          ∧ (∀ b ∈ bs, getLogs b.fromBlock b.toBlock = some b.logs)
          ∧ List.Chain' (· ≤ ·) (stateVal state :: bs.map Batch.toBlock) := by
  constructor
  · intro runs batchSize startBlock state
    induction runs generalizing state with
    | nil => exact le_refl _
    | cons r rs ih =>
      have h1 := stateVal_le_runState r.1 batchSize startBlock r.2 state
      have h2 := ih (runState r.1 batchSize startBlock r.2 state)
      have h3 : runSequence (r :: rs) batchSize startBlock state
          = runSequence rs batchSize startBlock
            (runState r.1 batchSize startBlock r.2 state) := rfl
      rw [h3]
      exact le_trans h1 h2
  · intro o bsz start cur st
    obtain ⟨bs, tail, hEq, hTail, hOracle, hChain, -⟩ :=
      runIndexer_shape o bsz start cur st
    exact ⟨bs, tail, hEq, hTail, hOracle, hChain⟩

/-- C2: with a total RPC oracle, re-running `runIndexer` immediately after a
run, with unchanged remote height, fetches nothing, processes nothing and
writes no checkpoint (`([], none)`); and `fromBlock` resolves to
`lastBlock + 1` for a real (truthy) checkpoint and to the configured genesis
height when the checkpoint is absent. -/
theorem rescan_idempotent (getLogs : Nat → Nat → Option (List LogEntry))
    (batchSize startBlock currentBlock : Nat) (state : Option Nat)
    (lastBlock : Nat) (hTot : ∀ a b, getLogs a b ≠ none) (hlb : lastBlock ≠ 0) :
    runIndexer getLogs batchSize startBlock currentBlock
        (runState getLogs batchSize startBlock currentBlock state) = ([], none)
    ∧ resolveFromBlock startBlock (some lastBlock) = lastBlock + 1
    ∧ resolveFromBlock startBlock none = startBlock := by
  refine ⟨?_, by simp [resolveFromBlock, hlb], rfl⟩
  by_cases hge : resolveFromBlock startBlock state ≥ currentBlock
  · have h1 : runIndexer getLogs batchSize startBlock currentBlock state
        = ([], none) := by
      simp only [runIndexer, if_pos hge]
    have h2 : runState getLogs batchSize startBlock currentBlock state = state := by
      simp [runState, h1]
    rw [h2]
    exact h1
  · have hlt : resolveFromBlock startBlock state < currentBlock := by omega
    have hc : (runIndexer getLogs batchSize startBlock currentBlock state).2
        = some currentBlock := by
      simp only [runIndexer, if_neg hge]
      exact scanLoop_complete getLogs batchSize currentBlock hTot _ _
        (by omega) (by omega)
    have h2 : runState getLogs batchSize startBlock currentBlock state
        = some currentBlock := by
      simp [runState, hc]
    rw [h2]
    have hne : currentBlock ≠ 0 := by omega
    have h3 : resolveFromBlock startBlock (some currentBlock)
        = currentBlock + 1 := by
      simp [resolveFromBlock, hne]
    simp only [runIndexer, h3, if_pos (Nat.le_succ currentBlock)]

/-- Closed witness for `rescan_idempotent` at a concrete input. -/
theorem rescan_idempotent_witness :
    runIndexer (fun _ _ => some []) 10000 100 5
        (runState (fun _ _ => some []) 10000 100 5 none) = ([], none)
    ∧ resolveFromBlock 100 (some 7) = 7 + 1
    ∧ resolveFromBlock 100 none = 100 :=
  rescan_idempotent (fun _ _ => some []) 10000 100 5 none 7
    (fun _ _ => by simp) (by decide)

/-- C4 counterexample: with the stored checkpoint one below the remote
height, `fromBlock = 100` equals `toBlock = 100` (so `fromBlock ≤ toBlock`),
yet `runIndexer` returns the no-op result without fetching — the guard in
the code is `fromBlock >= currentBlock`, not `>`; the oracle here would even
return a log for that block. -/
theorem scan_skips_at_equal_height :
    resolveFromBlock START_BLOCK (some 99) = 100
    ∧ runIndexer (fun _ _ => some [⟨100, "0xdead", 0⟩]) 10000 START_BLOCK 100
        (some 99) = ([], none) :=
  ⟨by decide, by decide⟩

/-- C4 amended: with a total RPC oracle, `runIndexer` is a no-op (no fetch,
no processing, no checkpoint write) exactly when the resolved `fromBlock` is
at or above the remote height (`fromBlock >= toBlock`, the code's guard);
whenever `fromBlock < toBlock` it scans and its final checkpoint write is the
remote height. -/
theorem scan_noop_iff (getLogs : Nat → Nat → Option (List LogEntry))
    (batchSize startBlock currentBlock : Nat) (state : Option Nat)
    (hTot : ∀ a b, getLogs a b ≠ none) :
    (runIndexer getLogs batchSize startBlock currentBlock state = ([], none)
      ↔ currentBlock ≤ resolveFromBlock startBlock state)
    ∧ (resolveFromBlock startBlock state < currentBlock →
      (runIndexer getLogs batchSize startBlock currentBlock state).2
        = some currentBlock) := by
  have hproc : resolveFromBlock startBlock state < currentBlock →
      (runIndexer getLogs batchSize startBlock currentBlock state).2
        = some currentBlock := by
    intro hlt
    simp only [runIndexer, if_neg (by omega :
      ¬ resolveFromBlock startBlock state ≥ currentBlock)]
    exact scanLoop_complete getLogs batchSize currentBlock hTot _ _
      (by omega) (by omega)
  refine ⟨⟨?_, ?_⟩, hproc⟩
  · intro hEq
    by_contra hc
    have h2 := hproc (by omega)
    rw [hEq] at h2
    exact Option.noConfusion h2
  · intro h
    simp only [runIndexer, if_pos h]

/-- Closed witness for `scan_noop_iff` at a concrete input. -/
theorem scan_noop_iff_witness :
    (runIndexer (fun _ _ => some []) 10000 100 10 (some 5) = ([], none)
      ↔ (10 : Nat) ≤ resolveFromBlock 100 (some 5))
    ∧ (resolveFromBlock 100 (some 5) < 10 →
      (runIndexer (fun _ _ => some []) 10000 100 10 (some 5)).2 = some 10) :=
  scan_noop_iff (fun _ _ => some []) 10000 100 10 (some 5) (fun _ _ => by simp)

/-- C5 counterexample: in the scenario "no checkpoint, genesis height 100,
remote height 25100, batch size 10000", the three `getLogs` ranges the code
issues are `[100,10100]`, `[10101,20101]`, `[20102,25100]` — the scan starts
at the genesis height itself and each full batch spans 10001 blocks — not
the claimed `[101,10100]`, `[10101,20100]`, `[20101,25100]`. -/
theorem scan_batches_scenario_mismatch :
    fetchRanges (runIndexer (fun _ _ => some []) 10000 100 25100 none).1
      = [(100, 10100), (10101, 20101), (20102, 25100)]
    ∧ [(100, 10100), (10101, 20101), (20102, 25100)]
      ≠ [(101, 10100), (10101, 20100), (20101, 25100)] :=
  ⟨by decide, by decide⟩

/-- C5 amended: the scenario scan performs exactly 3 batches, over
`[100,10100]`, `[10101,20101]` and `[20102,25100]` (full batches span
`batchSize + 1` blocks; the last is truncated at the remote height), each
batch's checkpoint write following its fetch, and the checkpoint ends at
25100. -/
theorem scan_batches_scenario :
    (runIndexer (fun _ _ => some []) 10000 100 25100 none).1
      = [ScanAction.fetchLogs 100 10100, ScanAction.writeCheckpoint 10100,
         ScanAction.fetchLogs 10101 20101, ScanAction.writeCheckpoint 20101,
         ScanAction.fetchLogs 20102 25100, ScanAction.writeCheckpoint 25100]
    ∧ (runIndexer (fun _ _ => some []) 10000 100 25100 none).2 = some 25100 :=
  ⟨by decide, by decide⟩

/-! ## Stream Connector (src/opensea-stream.ts)

Reconnect backoff.  JavaScript numbers are modelled by exact rationals; the
literals `0.2` and `0.5` are exact in both. `Math.random()` is an oracle
value in `[0, 1)`. -/

def BASE_RECONNECT_DELAY : Nat := 1000

def MAX_RECONNECT_DELAY : Nat := 60000

def MAX_RECONNECT_ATTEMPTS : Nat := 15

/-- `Math.min(BASE_RECONNECT_DELAY * Math.pow(2, reconnectAttempts),
MAX_RECONNECT_DELAY)` — the unjittered part of `getReconnectDelay`. -/
def unjitteredDelay (reconnectAttempts : Nat) : Nat :=
  min (BASE_RECONNECT_DELAY * 2 ^ reconnectAttempts) MAX_RECONNECT_DELAY

/-- `getReconnectDelay()`: `const jitter = delay * 0.2 * (Math.random() - 0.5);
return Math.floor(delay + jitter);`. -/
def getReconnectDelay (reconnectAttempts : Nat) (rand : ℚ) : Int :=
  let delay : ℚ := unjitteredDelay reconnectAttempts
  Int.floor (delay + delay * 0.2 * (rand - 0.5))

/-- Result of one `attemptReconnect()` call: the counter value it leaves
behind and the delay of the `setTimeout` it schedules. -/
structure ReconnectDecision where
  attemptsAfter : Nat
  delayMs : Int
  deriving DecidableEq

/-- `attemptReconnect()`: below `MAX_RECONNECT_ATTEMPTS` it increments the
counter and schedules `connect` after `getReconnectDelay()` — which reads
the already incremented counter; at or above the maximum it schedules a
retry after a fixed 5 minutes whose callback resets the counter to 0.  Both
branches schedule a future `connect`. -/
def attemptReconnect (reconnectAttempts : Nat) (rand : ℚ) : ReconnectDecision :=
  if reconnectAttempts < MAX_RECONNECT_ATTEMPTS then
    ⟨reconnectAttempts + 1, getReconnectDelay (reconnectAttempts + 1) rand⟩
  else
    ⟨0, 5 * 60 * 1000⟩

theorem unjitteredDelay_bounds (n : Nat) :
    1000 ≤ unjitteredDelay n ∧ unjitteredDelay n ≤ 60000 := by
  constructor
  · refine le_min ?_ (by decide)
    have h2 : 1 ≤ 2 ^ n := Nat.one_le_two_pow
    calc 1000 = 1000 * 1 := by decide
      _ ≤ 1000 * 2 ^ n := Nat.mul_le_mul_left 1000 h2
      _ = BASE_RECONNECT_DELAY * 2 ^ n := rfl
  · exact min_le_right _ _

theorem floor_jitter_bounds (d r : ℚ) (hd : 0 ≤ d) (h0 : 0 ≤ r) (h1 : r < 1) :
    d - d / 10 - 1 < (Int.floor (d + d * 0.2 * (r - 0.5)) : ℚ)
    ∧ (Int.floor (d + d * 0.2 * (r - 0.5)) : ℚ) ≤ d + d / 10 := by
  have hub : d + d * 0.2 * (r - 0.5) ≤ d + d / 10 := by nlinarith
  have hlb : d - d / 10 ≤ d + d * 0.2 * (r - 0.5) := by nlinarith
  have hfl := Int.floor_le (d + d * 0.2 * (r - 0.5))
  have hfg := Int.sub_one_lt_floor (d + d * 0.2 * (r - 0.5))
  constructor <;> linarith

theorem getReconnectDelay_bounds (n : Nat) (rand : ℚ)
    (h0 : 0 ≤ rand) (h1 : rand < 1) :
    (unjitteredDelay n : ℚ) - unjitteredDelay n / 10 - 1
        < (getReconnectDelay n rand : ℚ)
    ∧ (getReconnectDelay n rand : ℚ)
        ≤ (unjitteredDelay n : ℚ) + unjitteredDelay n / 10 :=
  floor_jitter_bounds (unjitteredDelay n : ℚ) rand (by positivity) h0 h1

/-- C7: the unjittered reconnect delay is `min(base * 2^n, cap)` with
`base = 1000` ms and `cap = 60000` ms, in particular 8000 ms at `n = 3`;
and for every `Math.random()` outcome the jittered delay the code returns
stays within ±20% of the unjittered value (the code's jitter factor
`0.2 * (rand - 0.5)` in fact only spans ±10%, so the floor stays inside the
±20% band). -/
theorem backoff_determinism (n : Nat) (rand : ℚ)
    (h0 : 0 ≤ rand) (h1 : rand < 1) :
    unjitteredDelay n = min (1000 * 2 ^ n) 60000
    ∧ unjitteredDelay 3 = 8000
    ∧ |(getReconnectDelay n rand : ℚ) - unjitteredDelay n|
        ≤ (unjitteredDelay n : ℚ) * (1 / 5) := by
  refine ⟨rfl, by decide, ?_⟩
  obtain ⟨hb1, hb2⟩ := unjitteredDelay_bounds n
  have hd1 : (1000 : ℚ) ≤ (unjitteredDelay n : ℚ) := by exact_mod_cast hb1
  obtain ⟨hlo, hhi⟩ := getReconnectDelay_bounds n rand h0 h1
  rw [abs_le]
  constructor <;> linarith

/-- Closed witness for `backoff_determinism` at `n = 3`,
`Math.random() = 1/2`. -/
theorem backoff_determinism_witness :
    unjitteredDelay 3 = min (1000 * 2 ^ 3) 60000
    ∧ unjitteredDelay 3 = 8000
    ∧ |(getReconnectDelay 3 (1/2) : ℚ) - unjitteredDelay 3|
        ≤ (unjitteredDelay 3 : ℚ) * (1 / 5) :=
  backoff_determinism 3 (1/2) (by norm_num) (by norm_num)

/-- C8: `attemptReconnect` always schedules a future `connect`: the delay is
positive and at most 5 minutes; once the attempt counter has reached
`MAX_RECONNECT_ATTEMPTS` the exponential growth stops and the scheduled
retry is the fixed 5-minute interval, whose callback resets the counter —
the connector never gives up permanently. -/
theorem reconnect_never_gives_up (n : Nat) (rand : ℚ)
    (h0 : 0 ≤ rand) (h1 : rand < 1) :
    0 < (attemptReconnect n rand).delayMs
    ∧ (attemptReconnect n rand).delayMs ≤ 5 * 60 * 1000
    ∧ (MAX_RECONNECT_ATTEMPTS ≤ n →
        (attemptReconnect n rand).delayMs = 5 * 60 * 1000
        ∧ (attemptReconnect n rand).attemptsAfter = 0) := by
  by_cases hlt : n < MAX_RECONNECT_ATTEMPTS
  · obtain ⟨hb1, hb2⟩ := unjitteredDelay_bounds (n + 1)
    have hd1 : (1000 : ℚ) ≤ (unjitteredDelay (n + 1) : ℚ) := by exact_mod_cast hb1
    have hd2 : (unjitteredDelay (n + 1) : ℚ) ≤ 60000 := by exact_mod_cast hb2
    obtain ⟨hlo, hhi⟩ := getReconnectDelay_bounds (n + 1) rand h0 h1
    have hres : attemptReconnect n rand
        = ⟨n + 1, getReconnectDelay (n + 1) rand⟩ := by
      simp [attemptReconnect, hlt]
    rw [hres]
    refine ⟨?_, ?_, fun hmax => absurd hmax (by omega)⟩
    · have : (0 : ℚ) < (getReconnectDelay (n + 1) rand : ℚ) := by linarith
      exact_mod_cast this
    · have : (getReconnectDelay (n + 1) rand : ℚ) ≤ 5 * 60 * 1000 := by linarith
      exact_mod_cast this
  · have hres : attemptReconnect n rand = ⟨0, 5 * 60 * 1000⟩ := by
      simp [attemptReconnect, hlt]
    rw [hres]
    exact ⟨by decide, by decide, fun _ => ⟨rfl, rfl⟩⟩

/-- Closed witness for `reconnect_never_gives_up` at the capped state
`n = 15` (and the bounds also hold there). -/
theorem reconnect_never_gives_up_witness :
    0 < (attemptReconnect 15 (1/2)).delayMs
    ∧ (attemptReconnect 15 (1/2)).delayMs ≤ 5 * 60 * 1000
    ∧ (MAX_RECONNECT_ATTEMPTS ≤ 15 →
        (attemptReconnect 15 (1/2)).delayMs = 5 * 60 * 1000
        ∧ (attemptReconnect 15 (1/2)).attemptsAfter = 0) :=
  reconnect_never_gives_up 15 (1/2) (by norm_num) (by norm_num)

/-! ### Subscription replay (src/opensea-stream.ts)

`subscribedCollections` is a JS `Set<string>`, modelled as its element list
in insertion order (so a faithful model is duplicate-free). -/

/-- `subscribedCollections.add(slug)`. -/
def subscribeAdd (subs : List String) (slug : String) : List String :=
  if slug ∈ subs then subs else subs ++ [slug]

/-- A frame the connector sends over the socket. -/
structure SentMsg where
  topic : String
  event : String
  ref : Nat
  deriving DecidableEq

/-- Connector state during a replay: frames sent so far, the subscription
set, and the `messageRef` counter. -/
structure ReplayState where
  sent : List SentMsg
  subs : List String
  messageRef : Nat
  deriving DecidableEq

/-- One `subscribeToCollection(slug)` call while the socket is OPEN
(`ws.readyState === 1`, which holds inside the `open` handler): add the slug
to the set, bump `messageRef`, and send one `phx_join` frame for topic
`collection:<slug>`. -/
def subscribeToCollection (st : ReplayState) (slug : String) : ReplayState :=
  { sent := st.sent ++
      [⟨"collection:" ++ slug, "phx_join", st.messageRef + 1⟩],
    subs := subscribeAdd st.subs slug,
    messageRef := st.messageRef + 1 }

/-- The replay portion of the `ws.on('open')` handler: iterate over the
snapshot `Array.from(subscribedCollections)` and call
`subscribeToCollection` for each element.  Returns the frames this handler
sent plus the state it leaves. -/
def onOpenReplay (subs : List String) (messageRef : Nat) : ReplayState :=
  subs.foldl subscribeToCollection ⟨[], subs, messageRef⟩

/-- `n` successive disconnect/reconnect cycles: the `close` handler does not
touch `subscribedCollections`, and every successful reconnect fires the
`open` handler, which replays the then-current set.  Returns the per-cycle
sent frames and the final subscription set and counter. -/
def reconnectCycles : Nat → List String → Nat →
    List (List SentMsg) × List String × Nat
  | 0, subs, messageRef => ([], subs, messageRef)
  | k + 1, subs, messageRef =>
    let st := onOpenReplay subs messageRef
    let rest := reconnectCycles k st.subs st.messageRef
    (st.sent :: rest.1, rest.2.1, rest.2.2)

theorem foldl_subscribe_subs (snapshot : List String) :
    ∀ st : ReplayState, (∀ s ∈ snapshot, s ∈ st.subs) →
      (snapshot.foldl subscribeToCollection st).subs = st.subs := by
  induction snapshot with
  | nil => intro st _; rfl
  | cons s0 rest ih =>
    intro st hmem
    have h0 : s0 ∈ st.subs := hmem s0 (List.mem_cons_self s0 rest)
    have hadd : subscribeAdd st.subs s0 = st.subs := by
      simp [subscribeAdd, h0]
    have hst : (subscribeToCollection st s0).subs = st.subs := by
      simp [subscribeToCollection, hadd]
    rw [List.foldl_cons]
    rw [ih (subscribeToCollection st s0)
      (by intro s hs; rw [hst]; exact hmem s (List.mem_cons_of_mem s0 hs))]
    exact hst

theorem foldl_subscribe_sent (snapshot : List String) :
    ∀ st : ReplayState,
      (snapshot.foldl subscribeToCollection st).sent.map
          (fun m => (m.topic, m.event))
        = st.sent.map (fun m => (m.topic, m.event))
          ++ snapshot.map (fun s => ("collection:" ++ s, "phx_join")) := by
  induction snapshot with
  | nil => intro st; simp
  | cons s0 rest ih =>
    intro st
    rw [List.foldl_cons, ih (subscribeToCollection st s0)]
    simp [subscribeToCollection]

theorem collection_topic_injective :
    Function.Injective (fun s => "collection:" ++ s) := by
  intro a b h
  have h1 : "collection:" ++ a = "collection:" ++ b := h
  have h2 : ("collection:" ++ a).data = ("collection:" ++ b).data := by rw [h1]
  rw [String.data_append, String.data_append] at h2
  exact String.ext (List.append_cancel_left h2)

/-- C6: for any duplicate-free subscription set and any number of
disconnect/reconnect cycles, the frames each `open` handler sends are
exactly one `phx_join` per subscribed topic — no more, no fewer, no
duplicates — and the subscription set itself is unchanged by the replays. -/
theorem subscription_replay (subs : List String) (messageRef : Nat)
    (n : Nat) (hnd : subs.Nodup) :
    (reconnectCycles n subs messageRef).2.1 = subs
    ∧ ∀ cyc ∈ (reconnectCycles n subs messageRef).1,
        cyc.map (fun m => (m.topic, m.event))
          = subs.map (fun s => ("collection:" ++ s, "phx_join"))
        ∧ (cyc.map SentMsg.topic).Nodup := by
  induction n generalizing messageRef with
  | zero => exact ⟨rfl, by intro cyc h; simp [reconnectCycles] at h⟩
  | succ k ih =>
    have hsubs : (onOpenReplay subs messageRef).subs = subs :=
      foldl_subscribe_subs subs ⟨[], subs, messageRef⟩ (fun s hs => hs)
    have hsent : (onOpenReplay subs messageRef).sent.map
        (fun m => (m.topic, m.event))
        = subs.map (fun s => ("collection:" ++ s, "phx_join")) := by
      have := foldl_subscribe_sent subs (⟨[], subs, messageRef⟩ : ReplayState)
      simpa [onOpenReplay] using this
    have htopics : (onOpenReplay subs messageRef).sent.map SentMsg.topic
        = subs.map (fun s => "collection:" ++ s) := by
      have h2 := congrArg (List.map Prod.fst) hsent
      simpa [Function.comp] using h2
    obtain ⟨ih1, ih2⟩ := ih (onOpenReplay subs messageRef).messageRef
    constructor
    · show (reconnectCycles k (onOpenReplay subs messageRef).subs
          (onOpenReplay subs messageRef).messageRef).2.1 = subs
      rw [hsubs]
      exact ih1
    · intro cyc hcyc
      have hcases : cyc = (onOpenReplay subs messageRef).sent
          ∨ cyc ∈ (reconnectCycles k (onOpenReplay subs messageRef).subs
              (onOpenReplay subs messageRef).messageRef).1 := by
        simpa [reconnectCycles] using hcyc
      rcases hcases with h | h
      · subst h
        refine ⟨hsent, ?_⟩
        rw [htopics]
        exact hnd.map collection_topic_injective
      · rw [hsubs] at h
        exact ih2 cyc h

/-- Closed witness for `subscription_replay`: topics `{A, B}`, two drops. -/
theorem subscription_replay_witness :
    (reconnectCycles 2 ["A", "B"] 0).2.1 = ["A", "B"]
    ∧ ∀ cyc ∈ (reconnectCycles 2 ["A", "B"] 0).1,
        cyc.map (fun m => (m.topic, m.event))
          = ["A", "B"].map (fun s => ("collection:" ++ s, "phx_join"))
        ∧ (cyc.map SentMsg.topic).Nodup :=
  subscription_replay ["A", "B"] 0 2 (by decide)

/-! ## Cache Refresher (src/index.ts)

`Date.now()` values are Nat milliseconds; the database token rows and the
two external per-subject fetchers (GeckoTerminal market data, FeeDistributor
rewards) are oracles in the environment.  A fetcher returning `none` models
both a `null` result and a thrown-and-caught error. -/

def MARKET_DATA_REFRESH_MS : Nat := 60 * 1000

def REWARDS_REFRESH_MS : Nat := 30 * 1000

structure MarketData where
  priceUsd : ℚ
  priceChange24h : ℚ
  volume24h : ℚ
  marketCap : ℚ
  fdv : ℚ
  liquidity : ℚ
  lastUpdated : Nat
  deriving DecidableEq

structure RewardsData where
  totalRewards : String
  accRewardPerNFT : String
  nftSupply : String
  lastUpdated : Nat
  deriving DecidableEq

/-- One row of `SELECT address, chain FROM tokens`. -/
structure TokenRow where
  address : String
  chain : String
  deriving DecidableEq

/-- `address.toLowerCase()`, character by character. -/
def toLowerStr (s : String) : String :=
  ⟨s.data.map Char.toLower⟩

/-- The cache key `${token.chain}:${token.address.toLowerCase()}`. -/
def cacheKey (t : TokenRow) : String :=
  t.chain ++ ":" ++ toLowerStr t.address

/-- `Map.set` of the JS in-memory cache, as a partial map update. -/
def cacheSet {α : Type} (c : String → Option α) (k : String) (v : α) :
    String → Option α :=
  fun q => if q = k then some v else c q

/-- The per-token body of a refresh sweep: fetch the subject, and only on a
non-null result overwrite its cache entry (`if (data) cache.set(key, data)`). -/
def sweepStep {α : Type} (fetch : TokenRow → Option α)
    (c : String → Option α) (t : TokenRow) : String → Option α :=
  match fetch t with
  | some data => cacheSet c (cacheKey t) data
  | none => c

/-- The market sweep: every token row, in order (the code batches 5 at a
time with a 200 ms pause, which does not change any per-key outcome). -/
def marketSweep (fetchMarket : TokenRow → Option MarketData)
    (tokens : List TokenRow) (cache : String → Option MarketData) :
    String → Option MarketData :=
  tokens.foldl (sweepStep fetchMarket) cache

/-- The rewards sweep: the code loops `for (const chain of ['base',
'ethereum'])` over the rows filtered per chain. -/
def rewardsSweep (fetchRewards : TokenRow → Option RewardsData)
    (tokens : List TokenRow) (cache : String → Option RewardsData) :
    String → Option RewardsData :=
  ["base", "ethereum"].foldl
    (fun c chain =>
      (tokens.filter (fun t => t.chain = chain)).foldl
        (sweepStep fetchRewards) c)
    cache

/-- Environment of a refresh call: whether `sql` is configured, `Date.now()`
at entry, the token rows, and the two fetch oracles. -/
structure RefreshEnv where
  sqlConfigured : Bool
  now : Nat
  tokens : List TokenRow
  fetchMarket : TokenRow → Option MarketData
  fetchRewards : TokenRow → Option RewardsData

/-- The module-level mutable state of src/index.ts that the refreshers
touch. -/
structure CacheState where
  marketCache : String → Option MarketData
  rewardsCache : String → Option RewardsData
  lastMarketRefresh : Nat
  lastRewardsRefresh : Nat
  cacheRefreshInProgress : Bool

/-- `refreshMarketCache()`: `if (!sql || cacheRefreshInProgress) return;`,
then the 60-second debounce against `lastMarketRefresh`, then the sweep,
then `lastMarketRefresh = now` (the value captured at entry). -/
def refreshMarketCache (env : RefreshEnv) (s : CacheState) : CacheState :=
  if !env.sqlConfigured || s.cacheRefreshInProgress then s
  else if env.now - s.lastMarketRefresh < MARKET_DATA_REFRESH_MS then s
  else { s with
    marketCache := marketSweep env.fetchMarket env.tokens s.marketCache,
    lastMarketRefresh := env.now }

/-- `refreshRewardsCache()`: same shape with the 30-second debounce. -/
def refreshRewardsCache (env : RefreshEnv) (s : CacheState) : CacheState :=
  if !env.sqlConfigured || s.cacheRefreshInProgress then s
  else if env.now - s.lastRewardsRefresh < REWARDS_REFRESH_MS then s
  else { s with
    rewardsCache := rewardsSweep env.fetchRewards env.tokens s.rewardsCache,
    lastRewardsRefresh := env.now }

/-- `refreshAllCaches()`: return if the shared flag is set, otherwise set
it, run both domain refreshers (each re-checks the same flag), and clear it
in `finally`. -/
def refreshAllCaches (env : RefreshEnv) (s : CacheState) : CacheState :=
  if s.cacheRefreshInProgress then s
  else
    let s1 := { s with cacheRefreshInProgress := true }
    let s2 := refreshRewardsCache env (refreshMarketCache env s1)
    { s2 with cacheRefreshInProgress := false }

theorem cacheSet_ne {α : Type} (c : String → Option α) (k q : String) (v : α)
    (h : q ≠ k) : cacheSet c k v q = c q := by
  simp [cacheSet, h]

/-- Frame property of a sweep fold: a key none of whose tokens fetched
successfully keeps its prior entry. -/
theorem sweep_frame {α : Type} (fetch : TokenRow → Option α) (k : String) :
    ∀ (tokens : List TokenRow) (cache : String → Option α),
      (∀ t ∈ tokens, cacheKey t = k → fetch t = none) →
      tokens.foldl (sweepStep fetch) cache k = cache k := by
  intro tokens
  induction tokens with
  | nil => intro cache _; rfl
  | cons t0 rest ih =>
    intro cache hnone
    rw [List.foldl_cons]
    rw [ih (sweepStep fetch cache t0)
      (fun t ht hk => hnone t (List.mem_cons_of_mem t0 ht) hk)]
    cases hf : fetch t0 with
    | none => simp [sweepStep, hf]
    | some data =>
      have hk : cacheKey t0 ≠ k := fun hk =>
        Option.noConfusion (hf ▸ hnone t0 (List.mem_cons_self t0 rest) hk)
      simp only [sweepStep, hf]
      exact cacheSet_ne cache (cacheKey t0) k data (fun h => hk h.symm)

theorem rewardsSweep_frame (fetch : TokenRow → Option RewardsData)
    (k : String) (tokens : List TokenRow)
    (cache : String → Option RewardsData)
    (h : ∀ t ∈ tokens, cacheKey t = k → fetch t = none) :
    rewardsSweep fetch tokens cache k = cache k := by
  have hfilter : ∀ (chain : String) (c : String → Option RewardsData),
      (tokens.filter (fun t => t.chain = chain)).foldl (sweepStep fetch) c k
        = c k := by
    intro chain c
    exact sweep_frame fetch k _ c
      (fun t ht hk => h t (List.mem_of_mem_filter ht) hk)
  simp only [rewardsSweep, List.foldl_cons, List.foldl_nil, hfilter]

/-- C9: during a refresh, a subject whose fetch fails (returns null or
throws) keeps its pre-sweep cache entry — it is neither cleared nor
overwritten; stated per key: if every token row mapping to a key has a
failing fetch, that key's entry is unchanged by `refreshMarketCache` and by
`refreshRewardsCache` (only keys with a successful fetch are replaced, by
`sweepStep`). -/
theorem stale_preference (env : RefreshEnv) (s : CacheState) (kM kR : String)
    (hM : ∀ t ∈ env.tokens, cacheKey t = kM → env.fetchMarket t = none)
    (hR : ∀ t ∈ env.tokens, cacheKey t = kR → env.fetchRewards t = none) :
    (refreshMarketCache env s).marketCache kM = s.marketCache kM
    ∧ (refreshRewardsCache env s).rewardsCache kR = s.rewardsCache kR := by
  constructor
  · unfold refreshMarketCache
    split
    · rfl
    · split
      · rfl
      · exact sweep_frame env.fetchMarket kM env.tokens s.marketCache hM
  · unfold refreshRewardsCache
    split
    · rfl
    · split
      · rfl
      · exact rewardsSweep_frame env.fetchRewards kR env.tokens
          s.rewardsCache hR

/-- Closed witness for `stale_preference`: one token whose market fetch
fails and whose rewards fetch fails; its populated entries survive. -/
theorem stale_preference_witness :
    (refreshMarketCache
        ⟨true, 1000000, [⟨"0xabc", "base"⟩], fun _ => none, fun _ => none⟩
        ⟨fun q => if q = "base:0xabc"
            then some ⟨1, 2, 3, 4, 5, 6, 7⟩ else none,
          fun q => if q = "base:0xabc"
            then some ⟨"10", "20", "30", 7⟩ else none,
          0, 0, false⟩).marketCache "base:0xabc"
      = (⟨fun q => if q = "base:0xabc"
            then some ⟨1, 2, 3, 4, 5, 6, 7⟩ else none,
          fun q => if q = "base:0xabc"
            then some ⟨"10", "20", "30", 7⟩ else none,
          0, 0, false⟩ : CacheState).marketCache "base:0xabc"
    ∧ (refreshRewardsCache
        ⟨true, 1000000, [⟨"0xabc", "base"⟩], fun _ => none, fun _ => none⟩
        ⟨fun q => if q = "base:0xabc"
            then some ⟨1, 2, 3, 4, 5, 6, 7⟩ else none,
          fun q => if q = "base:0xabc"
            then some ⟨"10", "20", "30", 7⟩ else none,
          0, 0, false⟩).rewardsCache "base:0xabc"
      = (⟨fun q => if q = "base:0xabc"
            then some ⟨1, 2, 3, 4, 5, 6, 7⟩ else none,
          fun q => if q = "base:0xabc"
            then some ⟨"10", "20", "30", 7⟩ else none,
          0, 0, false⟩ : CacheState).rewardsCache "base:0xabc" :=
  stale_preference
    ⟨true, 1000000, [⟨"0xabc", "base"⟩], fun _ => none, fun _ => none⟩
    ⟨fun q => if q = "base:0xabc" then some ⟨1, 2, 3, 4, 5, 6, 7⟩ else none,
      fun q => if q = "base:0xabc" then some ⟨"10", "20", "30", 7⟩ else none,
      0, 0, false⟩
    "base:0xabc" "base:0xabc"
    (fun _ _ _ => rfl) (fun _ _ _ => rfl)

/-- C10: `refreshAllCaches()` invoked when no refresh is in progress leaves
the whole cache state unchanged — both caches, both `last*Refresh`
timestamps, and the flag: it sets `cacheRefreshInProgress` before invoking
`refreshMarketCache` and `refreshRewardsCache`, each of which returns
immediately because that same flag is set, and the `finally` clears the
flag back to false. -/
theorem refreshAllCaches_noop (env : RefreshEnv) (s : CacheState)
    (h : s.cacheRefreshInProgress = false) :
    refreshAllCaches env s = s := by
  cases s with
  | mk mc rc lm lr flag =>
    simp only at h
    subst h
    simp [refreshAllCaches, refreshMarketCache, refreshRewardsCache]

/-- Closed witness for `refreshAllCaches_noop`: an idle state with
everything in place for a sweep (database configured, a token row, both
fetchers succeeding, debounce long expired) still comes back unchanged. -/
theorem refreshAllCaches_noop_witness :
    refreshAllCaches
        ⟨true, 1000000, [⟨"0xabc", "base"⟩],
          fun _ => some ⟨1, 2, 3, 4, 5, 6, 7⟩,
          fun _ => some ⟨"10", "20", "30", 7⟩⟩
        ⟨fun _ => none, fun _ => none, 0, 0, false⟩
      = ⟨fun _ => none, fun _ => none, 0, 0, false⟩ :=
  refreshAllCaches_noop
    ⟨true, 1000000, [⟨"0xabc", "base"⟩],
      fun _ => some ⟨1, 2, 3, 4, 5, 6, 7⟩,
      fun _ => some ⟨"10", "20", "30", 7⟩⟩
    ⟨fun _ => none, fun _ => none, 0, 0, false⟩ rfl

/-- C3 at the failing input: from an idle state — flag clear, database
configured, debounce long expired, one token row, both fetchers succeeding —
two `refreshAllCaches()` triggers (the overlap direction makes no
difference, since even the first performs nothing) leave both caches empty
and both refresh timestamps at 0: zero sweeps happened, not the single
sweep the claim requires; yet a direct `refreshMarketCache()` call from the
very same state does store the fetched entry, showing a sweep was due.  The
cause: `refreshAllCaches` sets the shared `cacheRefreshInProgress` flag and
then calls the per-domain refreshers, each of which returns immediately
because that very flag is set — contradicting the function's own stated
purpose ("Full cache refresh") and the `/cache/refresh` endpoint's
"Cache refresh initiated" response. -/
theorem refresh_single_flight_bug :
    (refreshAllCaches
        ⟨true, 1000000, [⟨"0xabc", "base"⟩],
          fun _ => some ⟨1, 2, 3, 4, 5, 6, 7⟩,
          fun _ => some ⟨"10", "20", "30", 7⟩⟩
        (refreshAllCaches
          ⟨true, 1000000, [⟨"0xabc", "base"⟩],
            fun _ => some ⟨1, 2, 3, 4, 5, 6, 7⟩,
            fun _ => some ⟨"10", "20", "30", 7⟩⟩
          ⟨fun _ => none, fun _ => none, 0, 0, false⟩)).marketCache "base:0xabc"
      = none
    ∧ (refreshAllCaches
        ⟨true, 1000000, [⟨"0xabc", "base"⟩],
          fun _ => some ⟨1, 2, 3, 4, 5, 6, 7⟩,
          fun _ => some ⟨"10", "20", "30", 7⟩⟩
        (refreshAllCaches
          ⟨true, 1000000, [⟨"0xabc", "base"⟩],
            fun _ => some ⟨1, 2, 3, 4, 5, 6, 7⟩,
            fun _ => some ⟨"10", "20", "30", 7⟩⟩
          ⟨fun _ => none, fun _ => none, 0, 0, false⟩)).rewardsCache "base:0xabc"
      = none
    ∧ (refreshAllCaches
        ⟨true, 1000000, [⟨"0xabc", "base"⟩],
          fun _ => some ⟨1, 2, 3, 4, 5, 6, 7⟩,
          fun _ => some ⟨"10", "20", "30", 7⟩⟩
        (refreshAllCaches
          ⟨true, 1000000, [⟨"0xabc", "base"⟩],
            fun _ => some ⟨1, 2, 3, 4, 5, 6, 7⟩,
            fun _ => some ⟨"10", "20", "30", 7⟩⟩
          ⟨fun _ => none, fun _ => none, 0, 0, false⟩)).lastMarketRefresh = 0
    ∧ (refreshAllCaches
        ⟨true, 1000000, [⟨"0xabc", "base"⟩],
          fun _ => some ⟨1, 2, 3, 4, 5, 6, 7⟩,
          fun _ => some ⟨"10", "20", "30", 7⟩⟩
        (refreshAllCaches
          ⟨true, 1000000, [⟨"0xabc", "base"⟩],
            fun _ => some ⟨1, 2, 3, 4, 5, 6, 7⟩,
            fun _ => some ⟨"10", "20", "30", 7⟩⟩
          ⟨fun _ => none, fun _ => none, 0, 0, false⟩)).lastRewardsRefresh = 0
    ∧ (refreshMarketCache
        ⟨true, 1000000, [⟨"0xabc", "base"⟩],
          fun _ => some ⟨1, 2, 3, 4, 5, 6, 7⟩,
          fun _ => some ⟨"10", "20", "30", 7⟩⟩
        ⟨fun _ => none, fun _ => none, 0, 0, false⟩).marketCache "base:0xabc"
      = some ⟨1, 2, 3, 4, 5, 6, 7⟩ :=
  ⟨by decide, by decide, by decide, by decide, by decide⟩
